import Mathlib

/-!
Shallow embedding of the flutterproxy repository (packages `fakeca`,
`connectproxy`, `httpsproxy`) and proofs about the behaviour its
specification describes.

Conventions of the embedding:
* Go byte slices are `List Nat`, Go strings are `String`.
* Go maps with string keys are functions `String → Option α`
  (assignment is modelled by `mapUpd`, which overwrites).
* Calls into the Go standard library (`pem.Decode`, `x509.Parse…`,
  `tls.X509KeyPair`, `net.Dial`, the `httputil` reverse-proxy
  constructor, …) are modelled as explicit oracle parameters, since
  their code is not part of this repository.
* Fallible Go functions returning `(T, error)` become `Except String T`.
* The `sync.RWMutex`-guarded lazy creation in
  `connectproxy.maybeStartHTTPSProxy` is modelled twice: once
  sequentially (for the error-handling and routing claims) and once as
  an interleaved transition system (for the double-checked-locking
  claim).
-/

/- ===================== fakeca ===================== -/

/-- A decoded PEM block, as returned by Go's `pem.Decode`:
a type tag and the DER bytes. -/
structure PEMBlock where
  type : String
  bytes : List Nat
deriving DecidableEq

/-- Result of running `fakeca.FromKeyPair`.  Besides the ordinary
success and error outcomes, Go code can crash on a nil-pointer
dereference; `nilDeref` records exactly that outcome. -/
inductive LoadResult (α : Type) where
  | ok (a : α)
  | err (msg : String)
  | nilDeref
deriving DecidableEq

/-- The `fakeca.FakeCA` struct: parsed key and certificate are kept as
abstract handles (the crypto itself is stdlib code), plus the two PEM
inputs that the Go struct stores verbatim. -/
structure FakeCAData where
  privKey : Nat
  cert : Nat
  privKeyPEM : List Nat
  certPEM : List Nat
deriving DecidableEq

/-- Oracles for the Go standard-library calls used by
`fakeca.FromKeyPair`: `pem.Decode`, `x509.ParsePKCS1PrivateKey` and
`x509.ParseCertificate`.  `pem.Decode` returns `none` for the Go
`nil` block; the parsers return abstract handles. -/
structure X509Lib where
  pemDecode : List Nat → Option PEMBlock
  parsePKCS1PrivateKey : List Nat → Except String Nat
  parseCertificate : List Nat → Except String Nat

/-- Embedding of `fakeca.FromKeyPair` (src/fakeca/fakeca.go:39-67).
The Go source decodes the certificate PEM with
`certDER, _ := pem.Decode(certPEM)` and then tests
`privKey == nil || certDER.Type != "CERTIFICATE"`.
At that point `privKey` is never nil (its parse already succeeded), so
when the certificate PEM has no decodable block (`certDER == nil`) the
field access `certDER.Type` dereferences a nil pointer: that branch is
the `nilDeref` outcome below. -/
def fromKeyPair (lib : X509Lib) (keyPEM certPEM : List Nat) : LoadResult FakeCAData :=
  match lib.pemDecode keyPEM with
  | none => .err "invalid private key"
  | some keyDER =>
    if keyDER.type ≠ "RSA PRIVATE KEY" then .err "invalid private key"
    else
      match lib.parsePKCS1PrivateKey keyDER.bytes with
      | .error e => .err e
      | .ok privKey =>
        match lib.pemDecode certPEM with
        | none => .nilDeref
        | some certDER =>
          if certDER.type ≠ "CERTIFICATE" then .err "invalid certificate"
          else
            match lib.parseCertificate certDER.bytes with
            | .error e => .err e
            | .ok cert => .ok ⟨privKey, cert, keyPEM, certPEM⟩

/-- A concrete standard-library oracle used to evaluate `fromKeyPair`
on concrete inputs: the byte string `[0]` decodes to a well-formed
RSA-private-key block whose DER parses, and every other byte string
contains no decodable PEM block. -/
def demoLib : X509Lib :=
  { pemDecode := fun b => if b = [0] then some ⟨"RSA PRIVATE KEY", [1]⟩ else none
    parsePKCS1PrivateKey := fun _ => .ok 0
    parseCertificate := fun _ => .ok 0 }

/-- The leaf-certificate template built by `fakeca.FakeCA.NewCert`
(src/fakeca/fakeca.go:115-126), field for field.  The validity window
is recorded as offsets relative to `time.Now()`. -/
structure LeafTemplate where
  serialNumber : Int
  subjectCommonName : String
  ipAddresses : List String
  notBeforeDaysOffset : Int
  notAfterYearsOffset : Int
  subjectKeyId : List Nat
  dnsNames : List String
  extKeyUsage : List String
  keyUsage : List String
deriving DecidableEq

/-- Embedding of the certificate template in `FakeCA.NewCert`. -/
def newCertTemplate (dnsNames : List String) : LeafTemplate :=
  { serialNumber := 1658
    subjectCommonName := "Fake CA"
    ipAddresses := ["127.0.0.1", "::1"]
    notBeforeDaysOffset := -7
    notAfterYearsOffset := 10
    subjectKeyId := [1, 2, 3, 4, 6]
    dnsNames := dnsNames
    extKeyUsage := ["ClientAuth", "ServerAuth"]
    keyUsage := ["DigitalSignature"] }

/-- `FakeCA.NewCert` signs the leaf with `ca.Cert` as the parent
certificate (`x509.CreateCertificate(rand.Reader, cert, ca.Cert, …)`),
so the issuer of every leaf is the root's certificate. -/
def newCertIssuer (ca : FakeCAData) : Nat := ca.cert

/- ===================== connectproxy: host normalization and tables ===================== -/

/-- Worker for `replaceList`, structurally recursive on a fuel
argument so that it evaluates inside the kernel.  Each step consumes
at least one character of `s`, so with fuel `s.length` the fuel never
runs out. -/
def replaceFuel (old new : List Char) : Nat → List Char → List Char
  | _, [] => []
  | 0, s => s
  | fuel + 1, c :: rest =>
    if old ≠ [] ∧ old.isPrefixOf (c :: rest) then
      new ++ replaceFuel old new fuel ((c :: rest).drop old.length)
    else
      c :: replaceFuel old new fuel rest

/-- Embedding of Go's `strings.ReplaceAll` on rune lists: replaces
every non-overlapping occurrence of `old` by `new`, scanning left to
right.  (For empty `old` the scan just copies, which is all the
repository ever needs: it only replaces "127.0.0.1".) -/
def replaceList (old new s : List Char) : List Char :=
  replaceFuel old new s.length s

/-- Embedding of `connectproxy.hostKey` (src/connectproxy/connect.go:73-75):
strip a leading "http://" (Go `strings.TrimPrefix`) and replace every
occurrence of "127.0.0.1" by "localhost" (Go `strings.ReplaceAll`). -/
def hostKey (host : String) : String :=
  let trimmed :=
    if ("http://".data).isPrefixOf host.data then host.data.drop 7 else host.data
  ⟨replaceList ("127.0.0.1".data) ("localhost".data) trimmed⟩

/-- Splitting a rune list at every occurrence of the separator
character; always returns at least one (possibly empty) group. -/
def splitChar (sep : Char) : List Char → List (List Char)
  | [] => [[]]
  | c :: rest =>
    match splitChar sep rest with
    | [] => [[]]
    | g :: gs => if c = sep then [] :: g :: gs else (c :: g) :: gs

/-- Embedding of Go's `strings.Split(v, ",")`: split around each
occurrence of the (single-character) separator. -/
def goSplitComma (v : String) : List String :=
  (splitChar ',' v.data).map fun l => ⟨l⟩

/-- Go map assignment `m[k] = v`: overwrite the entry at `k`. -/
def mapUpd {α : Type} (m : String → Option α) (k : String) (v : α) : String → Option α :=
  fun x => if x = k then some v else m x

/-- The three lookup tables of `connectproxy.Proxy` that `New` fills:
`LocalMap` (normalized local host → remote host), `RemoteMap`
(remote host → normalized local host) and `PrefixMap`
(remote host → list of path prefixes).  A missing `PrefixMap` key is
Go's nil slice, i.e. `[]`. -/
structure Tables where
  localMap : String → Option String
  remoteMap : String → Option String
  prefixMap : String → List String

/-- Fresh tables, as allocated by `make(map…)` in `connectproxy.New`. -/
def emptyTables : Tables :=
  ⟨fun _ => none, fun _ => none, fun _ => []⟩

/-- One iteration of the `hostPairs` loop of `connectproxy.New`
(src/connectproxy/connect.go:31-38): split on "," ; only entries with
exactly two fields update the tables (`parts[0]` is the remote host,
`parts[1]` the local host). -/
def addHostPair (t : Tables) (v : String) : Tables :=
  match goSplitComma v with
  | [remote, loc] =>
    let localHost := hostKey loc
    { t with
      localMap := mapUpd t.localMap localHost remote
      remoteMap := mapUpd t.remoteMap remote localHost }
  | _ => t

/-- One iteration of the `prefixPairs` loop of `connectproxy.New`
(src/connectproxy/connect.go:40-45): split on ","; only two-field
entries append `parts[1]` to the prefix list of host `parts[0]`. -/
def addPrefixPair (t : Tables) (v : String) : Tables :=
  match goSplitComma v with
  | [h, pre] =>
    { t with prefixMap := fun x => if x = h then t.prefixMap h ++ [pre] else t.prefixMap x }
  | _ => t

/-- Embedding of the table construction in `connectproxy.New`
(src/connectproxy/connect.go:20-48): the host-pair loop followed by the
prefix-pair loop. -/
def New (hostPairs prefixPairs : List String) : Tables :=
  prefixPairs.foldl addPrefixPair (hostPairs.foldl addHostPair emptyTables)

/-- The well-formed host pairs of an input list, as
(remote, normalized local) pairs, in input order. -/
def hostPairList (hostPairs : List String) : List (String × String) :=
  hostPairs.filterMap fun v =>
    match goSplitComma v with
    | [remote, loc] => some (remote, hostKey loc)
    | _ => none

/-- Folding Go map assignments over a list of (key, value) pairs. -/
def buildMap (ps : List (String × String)) (m : String → Option String) :
    String → Option String :=
  ps.foldl (fun m p => mapUpd m p.1 p.2) m

/- ===================== connectproxy: request dispatch ===================== -/

/-- The parts of Go's `url.URL` the proxy reads or rewrites. -/
structure URLModel where
  scheme : String
  host : String
  path : String
deriving DecidableEq

/-- The parts of Go's `http.Request` the proxy reads: method, the
`Host` header field, and the request URL. -/
structure Request where
  method : String
  host : String
  url : URLModel
deriving DecidableEq

/-- Go's `url.URL.Hostname()`: the host with any ":port" suffix
stripped (IPv6 bracket handling elided; the repository only uses it
on ordinary host:port strings). -/
def urlHostname (u : URLModel) : String :=
  ⟨u.host.data.takeWhile (fun c => c ≠ ':')⟩

/-- The error text written by the 405 branch of
`connectproxy.redirectToHTTPS` (the Go code uses `fmt.Sprintf` with
column padding; the padding is elided here). -/
def errText (req : Request) : String :=
  req.method ++ " ERROR " ++ req.host ++ " " ++ req.url.path

/-- The response written by `connectproxy.redirectToHTTPS`: either an
HTTP redirect to a URL or an `http.Error` with a status code. -/
inductive HTTPResponse where
  | redirect (code : Nat) (u : URLModel)
  | httpError (code : Nat) (msg : String)
deriving DecidableEq

/-- Embedding of `connectproxy.redirectToHTTPS`
(src/connectproxy/connect.go:91-105): look the normalized request host
up in `LocalMap`; on a hit, redirect (HTTP 307) to the request URL
with the host swapped for the mapped remote host and an "http" scheme
upgraded to "https"; on a miss answer 405. -/
def redirectToHTTPS (t : Tables) (req : Request) : HTTPResponse :=
  match t.localMap (hostKey req.host) with
  | some remoteHost =>
    let u1 := { req.url with host := remoteHost }
    let u2 := if u1.scheme = "http" then { u1 with scheme := "https" } else u1
    .redirect 307 u2
  | none => .httpError 405 (errText req)

/-- What `connectproxy.Proxy.ServeHTTP`
(src/connectproxy/connect.go:78-89) does with a request: signal
shutdown, answer on the non-CONNECT path, or fall through to
`handleConnect`. -/
inductive ServeAction where
  | quit
  | answered (r : HTTPResponse)
  | connect
deriving DecidableEq

/-- Embedding of `connectproxy.Proxy.ServeHTTP`: the reserved path
"/quitquitquit" signals the done channel; any other non-CONNECT
request goes to `redirectToHTTPS`; CONNECT requests go to
`handleConnect`. -/
def serveHTTP (t : Tables) (req : Request) : ServeAction :=
  if req.url.path = "/quitquitquit" then .quit
  else if req.method ≠ "CONNECT" then .answered (redirectToHTTPS t req)
  else .connect

/- ===================== connectproxy: CONNECT handling (sequential) ===================== -/

/-- The `connectproxy.domainInfo` record stored in `ProxyMap`
(src/connectproxy/connect.go:50-55); the `httpsproxy.Proxy` handle is
abstract. -/
structure DomainInfo where
  proxyHost : String
  certPEM : String
  privKeyPEM : String
  httpsProxyId : Nat
deriving DecidableEq

/-- The `ProxyMap` table: local-host key → `domainInfo`. -/
def ProxyMapT : Type := String → Option DomainInfo

/-- Observable effects of one `handleConnect` call, in program order. -/
inductive Event where
  | newCert (host : String)
  | x509KeyPair
  | newProxy
  | startServer
  | insert (key : String)
  | dial (host : String)
  | respond (code : Nat) (msg : String)
  | tunnelStart (target : String)
deriving DecidableEq

/-- Oracles for the effectful calls `maybeStartHTTPSProxy` and
`handleConnect` make: `FakeCA.NewCert` (returns certificate and key
PEM), `tls.X509KeyPair`, `httpsproxy.New` (arguments: server cert,
local masquerade host, remote host, prefix list), the proxy's
`StartServer` (returns the listening address), and `net.Dial`. -/
structure ConnectEnv where
  newCert : String → Except String (String × String)
  x509KeyPair : String → String → Except String Nat
  newProxy : Nat → String → String → List String → Except String Nat
  startServer : Nat → Except String String
  dial : String → Except String Unit
deriving Inhabited

/-- Result of `maybeStartHTTPSProxy`: the (possibly extended)
`ProxyMap`, the Go return pair `(string, error)` as an `Except`
(where `.ok ""` is Go's `("", nil)`), and the emitted events. -/
structure MSOut where
  pm : ProxyMapT
  res : Except String String
  events : List Event

/-- Sequential embedding of `connectproxy.maybeStartHTTPSProxy`
(src/connectproxy/connect.go:107-158).  The `RWMutex` choreography is
serialized: with a single caller the read-locked lookup and the
re-check under the exclusive lock see the same table, so the re-check
is the second `match pm localHost`.  (The interleaved version of this
function is `dcStep` below.) -/
def maybeStartHTTPSProxy (t : Tables) (pm : ProxyMapT) (env : ConnectEnv)
    (req : Request) : MSOut :=
  match t.remoteMap req.host with
  | none => ⟨pm, .ok "", []⟩
  | some localHost =>
    match pm localHost with
    | some info => ⟨pm, .ok info.proxyHost, []⟩
    | none =>
      let host := urlHostname req.url
      match env.newCert host with
      | .error e => ⟨pm, .error e, [.newCert host]⟩
      | .ok (certPEM, privKeyPEM) =>
        match env.x509KeyPair certPEM privKeyPEM with
        | .error e => ⟨pm, .error e, [.newCert host, .x509KeyPair]⟩
        | .ok serverCert =>
          match env.newProxy serverCert localHost req.host (t.prefixMap req.host) with
          | .error e => ⟨pm, .error e, [.newCert host, .x509KeyPair, .newProxy]⟩
          | .ok hid =>
            match env.startServer hid with
            | .error e =>
              ⟨pm, .error e, [.newCert host, .x509KeyPair, .newProxy, .startServer]⟩
            | .ok addr =>
              ⟨mapUpd pm localHost ⟨addr, certPEM, privKeyPEM, hid⟩, .ok addr,
               [.newCert host, .x509KeyPair, .newProxy, .startServer, .insert localHost]⟩

/-- Result of `handleConnect`: the resulting `ProxyMap` and the
emitted events. -/
structure HCOut where
  pm : ProxyMapT
  events : List Event

/-- Embedding of `connectproxy.handleConnect`
(src/connectproxy/connect.go:160-199): resolve the domain proxy; on
error answer 503 with the error text; otherwise dial the proxy address
(or, when the resolution returned "", the originally requested host),
answer 503 on dial failure, else acknowledge with 200, hijack the
client connection and start the two tunnel copy loops. -/
def handleConnect (t : Tables) (pm : ProxyMapT) (env : ConnectEnv)
    (req : Request) : HCOut :=
  let ms := maybeStartHTTPSProxy t pm env req
  match ms.res with
  | .error e => ⟨ms.pm, ms.events ++ [.respond 503 e]⟩
  | .ok proxyHost =>
    let remoteHost := if proxyHost = "" then req.host else proxyHost
    match env.dial remoteHost with
    | .error e => ⟨ms.pm, ms.events ++ [.dial remoteHost, .respond 503 e]⟩
    | .ok _ =>
      ⟨ms.pm, ms.events ++ [.dial remoteHost, .respond 200 "", .tunnelStart remoteHost]⟩

/- ===================== connectproxy: double-checked locking (interleaved) ===================== -/

/-- Control points of one thread running `maybeStartHTTPSProxy` for a
previously-unseen key (after the `RemoteMap` hit): about to do the
read-locked lookup (`start`), about to acquire the exclusive lock
(`tryLock`), holding the lock and about to re-check (`recheck`), or
returned (`finished`). -/
inductive PC where
  | start
  | tryLock
  | recheck
  | finished
deriving DecidableEq

/-- One thread of the interleaved model: its control point and, once
finished, the listening address it returned. -/
structure TState where
  pc : PC
  result : Option String
deriving DecidableEq

/-- Shared state of the interleaved model, for one fixed local-host
key: the `ProxyMap` entry for that key, the writer side of
`proxyMutex` (holder thread id, if held), the number of
`TerminatingProxy` creations-and-insertions performed so far, and the
per-thread states (arbitrarily many threads). -/
structure SysState where
  table : Option String
  lock : Option Nat
  created : Nat
  threads : Nat → TState

/-- The listening address produced by the n-th proxy creation
(`StartServer` binds a fresh ephemeral port per creation, so distinct
creations yield distinct addresses). -/
def freshAddr (n : Nat) : String :=
  "localhost:" ++ toString (30000 + n)

/-- All threads start before the read-locked lookup. -/
def dcInit : SysState :=
  ⟨none, none, 0, fun _ => ⟨PC.start, none⟩⟩

/-- Replace thread `tid`'s state. -/
def setThread (s : SysState) (tid : Nat) (th : TState) : Nat → TState :=
  fun i => if i = tid then th else s.threads i

/-- One atomic step of thread `tid`, following
src/connectproxy/connect.go:113-157.
`start`: the `RLock`-guarded lookup (blocked while a writer holds the
lock); a hit returns it, a miss proceeds to `Lock`.
`tryLock`: acquire the exclusive lock when free.
`recheck`: the second lookup under the exclusive lock; a hit returns
it and unlocks; a miss runs the whole creation block — issue the
certificate, build and start the `TerminatingProxy`, insert the
record — and unlocks.  The creation block is one step here because the
exclusive lock is held throughout it, so no other thread can observe
an intermediate table state.  A disabled thread leaves the state
unchanged. -/
def dcStep (s : SysState) (tid : Nat) : SysState :=
  match (s.threads tid).pc with
  | PC.start =>
    match s.lock with
    | some _ => s
    | none =>
      match s.table with
      | some a => { s with threads := setThread s tid ⟨PC.finished, some a⟩ }
      | none => { s with threads := setThread s tid ⟨PC.tryLock, none⟩ }
  | PC.tryLock =>
    match s.lock with
    | some _ => s
    | none => { s with lock := some tid, threads := setThread s tid ⟨PC.recheck, none⟩ }
  | PC.recheck =>
    match s.table with
    | some a =>
      { s with lock := none, threads := setThread s tid ⟨PC.finished, some a⟩ }
    | none =>
      let addr := freshAddr s.created
      { s with
        table := some addr
        created := s.created + 1
        lock := none
        threads := setThread s tid ⟨PC.finished, some addr⟩ }
  | PC.finished => s

/-- Run the interleaved model under a schedule: at each step the named
thread moves (if enabled). -/
def dcRun (sched : List Nat) : SysState :=
  sched.foldl dcStep dcInit

/-- The invariant of the double-checked-locking model: the table holds
the address of creation 0 exactly when one creation has happened, and
every finished thread returned that address. -/
def DCInv (s : SysState) : Prop :=
  (s.created = 0 ∧ s.table = none ∨ s.created = 1 ∧ s.table = some (freshAddr 0)) ∧
  ∀ tid, (s.threads tid).pc = PC.finished →
    s.created = 1 ∧ (s.threads tid).result = some (freshAddr 0)

/- ===================== httpsproxy ===================== -/

/-- Which reverse proxy `httpsproxy.Proxy.ServeHTTP` hands the request
to: `hp.next` (the pass-through proxy to the real remote host) or
`hp.target` (the masquerade proxy to the local host). -/
inductive Route where
  | passthrough
  | masquerade
deriving DecidableEq

/-- Embedding of Go's `strings.HasPrefix` on the rune lists of the two
strings: a literal prefix comparison. -/
def startsWithStr (s pre : String) : Bool :=
  pre.data.isPrefixOf s.data

/-- Embedding of `httpsproxy.Proxy.ServeHTTP`
(src/httpsproxy/reverseproxy.go:98-108): scan the configured prefixes
in order; on the first literal prefix match of the request path serve
via `hp.next`, otherwise serve via `hp.target`. -/
def proxyServeHTTP : List String → String → Route
  | [], _ => .masquerade
  | pre :: rest, path =>
    if startsWithStr path pre then .passthrough else proxyServeHTTP rest path

/-- The pair of reverse-proxy directors installed by
`httpsproxy.Proxy.StartServer`. -/
structure Directors where
  target : Request → Request
  next : Request → Request

/-- Embedding of `httpsproxy.makeDirector`
(src/httpsproxy/reverseproxy.go:89-94): run the wrapped director, then
overwrite the outbound request's `Host` field. -/
def makeDirector (director : Request → Request) (host : String) :
    Request → Request :=
  fun r =>
    let r' := director r
    { r' with host := host }

/-- Go's `url.Parse("https://" ++ s).Host`: everything of `s` up to
the first "/". -/
def urlHostOf (s : String) : String :=
  ⟨s.data.takeWhile (fun c => c ≠ '/')⟩

/-- The director wiring of `httpsproxy.Proxy.StartServer`
(src/httpsproxy/reverseproxy.go:64-70): both the masquerade proxy's
director and the pass-through proxy's director are the library default
(passed in as oracles `targetDirector` and `nextDirector`, they are
`httputil` stdlib code) wrapped by `makeDirector` with
`nextURL.Host`, where `nextURL = url.Parse("https://" + hp.nextHost)`. -/
def startServerDirectors (targetDirector nextDirector : Request → Request)
    (nextHost : String) : Directors :=
  { target := makeDirector targetDirector (urlHostOf nextHost)
    next := makeDirector nextDirector (urlHostOf nextHost) }



/-- A concrete environment whose certificate issuance fails: used to
evaluate the error path of `maybeStartHTTPSProxy` on concrete input. -/
def failEnv : ConnectEnv :=
  { newCert := fun _ => .error "boom"
    x509KeyPair := fun _ _ => .ok 0
    newProxy := fun _ _ _ _ => .ok 0
    startServer := fun _ => .ok "localhost:1"
    dial := fun _ => .ok () }

/-- A concrete environment where every effectful call succeeds. -/
def okEnv : ConnectEnv :=
  { newCert := fun _ => .ok ("CERT", "KEY")
    x509KeyPair := fun _ _ => .ok 0
    newProxy := fun _ _ _ _ => .ok 0
    startServer := fun _ => .ok "localhost:1"
    dial := fun _ => .ok () }

/- ===================== helper lemmas: tables ===================== -/

/-- Folding one more pair is folding into an updated base map. -/
theorem buildMap_cons (p : String × String) (ps : List (String × String))
    (m : String → Option String) :
    buildMap (p :: ps) m = buildMap ps (mapUpd m p.1 p.2) := rfl

/-- Lookup in a fold of Go map assignments, when the inserted keys are
pairwise distinct: a hit is membership of the pair, a miss falls back
to the base map. -/
theorem buildMap_eq_some_iff (ps : List (String × String))
    (m : String → Option String) (k v : String)
    (hnd : (ps.map Prod.fst).Nodup) :
    buildMap ps m k = some v ↔
      (k, v) ∈ ps ∨ (k ∉ ps.map Prod.fst ∧ m k = some v) := by
  induction ps generalizing m with
  | nil => simp [buildMap]
  | cons p ps ih =>
    obtain ⟨p1, p2⟩ := p
    simp only [List.map_cons, List.nodup_cons] at hnd
    rw [buildMap_cons, ih _ hnd.2]
    simp only [List.mem_cons, List.map_cons, Prod.mk.injEq]
    by_cases hk : k = p1
    · subst hk
      have hnot : ∀ w, (k, w) ∉ ps := fun w hmem =>
        hnd.1 (List.mem_map_of_mem Prod.fst hmem)
      constructor
      · rintro (hmem | ⟨hnk, hm⟩)
        · exact absurd hmem (hnot v)
        · have hv : p2 = v := by simpa [mapUpd] using hm
          exact Or.inl (Or.inl ⟨rfl, hv.symm⟩)
      · rintro ((⟨_, hv⟩ | hmem) | ⟨hnk, hm⟩)
        · refine Or.inr ⟨fun hmem => hnd.1 hmem, ?_⟩
          simp [mapUpd, hv]
        · exact absurd hmem (hnot v)
        · exact absurd (Or.inl rfl) hnk
    · have hmu : mapUpd m p1 p2 k = m k := by simp [mapUpd, hk]
      rw [hmu]
      constructor
      · rintro (hmem | ⟨hnk, hm⟩)
        · exact Or.inl (Or.inr hmem)
        · exact Or.inr ⟨fun h => h.elim hk hnk, hm⟩
      · rintro ((⟨hkp, _⟩ | hmem) | ⟨hnk, hm⟩)
        · exact absurd hkp hk
        · exact Or.inl hmem
        · exact Or.inr ⟨fun h => hnk (Or.inr h), hm⟩

/-- Malformed host-pair entries (field count ≠ 2) do not change the
tables. -/
theorem addHostPair_malformed (t : Tables) (e : String)
    (h : (goSplitComma e).length ≠ 2) : addHostPair t e = t := by
  unfold addHostPair
  split
  · rename_i heq
    rw [heq] at h
    simp at h
  · rfl

/-- Malformed prefix-pair entries (field count ≠ 2) do not change the
tables. -/
theorem addPrefixPair_malformed (t : Tables) (e : String)
    (h : (goSplitComma e).length ≠ 2) : addPrefixPair t e = t := by
  unfold addPrefixPair
  split
  · rename_i heq
    rw [heq] at h
    simp at h
  · rfl

/-- The prefix-pair loop leaves `LocalMap` alone. -/
theorem addPrefixPair_localMap (t : Tables) (v : String) :
    (addPrefixPair t v).localMap = t.localMap := by
  unfold addPrefixPair
  split <;> rfl

/-- The prefix-pair loop leaves `RemoteMap` alone. -/
theorem addPrefixPair_remoteMap (t : Tables) (v : String) :
    (addPrefixPair t v).remoteMap = t.remoteMap := by
  unfold addPrefixPair
  split <;> rfl

/-- The prefix-pair fold leaves `LocalMap` alone. -/
theorem foldl_addPrefixPair_localMap (pps : List String) (t : Tables) :
    (pps.foldl addPrefixPair t).localMap = t.localMap := by
  induction pps generalizing t with
  | nil => rfl
  | cons v vs ih => rw [List.foldl_cons, ih, addPrefixPair_localMap]

/-- The prefix-pair fold leaves `RemoteMap` alone. -/
theorem foldl_addPrefixPair_remoteMap (pps : List String) (t : Tables) :
    (pps.foldl addPrefixPair t).remoteMap = t.remoteMap := by
  induction pps generalizing t with
  | nil => rfl
  | cons v vs ih => rw [List.foldl_cons, ih, addPrefixPair_remoteMap]

/-- The host-pair loop builds `LocalMap` by assigning
normalized-local → remote for each well-formed pair, in order. -/
theorem foldl_addHostPair_localMap (hps : List String) (t : Tables) :
    (hps.foldl addHostPair t).localMap =
      buildMap ((hostPairList hps).map fun p => (p.2, p.1)) t.localMap := by
  induction hps generalizing t with
  | nil => rfl
  | cons v vs ih =>
    rw [List.foldl_cons]
    cases h : goSplitComma v with
    | nil => simp [hostPairList, List.filterMap_cons, h, addHostPair, ih]
    | cons a tl =>
      cases tl with
      | nil => simp [hostPairList, List.filterMap_cons, h, addHostPair, ih]
      | cons b tl2 =>
        cases tl2 with
        | nil =>
          rw [ih]
          simp only [hostPairList, List.filterMap_cons, h, addHostPair]
          rfl
        | cons c tl3 => simp [hostPairList, List.filterMap_cons, h, addHostPair, ih]

/-- The host-pair loop builds `RemoteMap` by assigning
remote → normalized-local for each well-formed pair, in order. -/
theorem foldl_addHostPair_remoteMap (hps : List String) (t : Tables) :
    (hps.foldl addHostPair t).remoteMap =
      buildMap (hostPairList hps) t.remoteMap := by
  induction hps generalizing t with
  | nil => rfl
  | cons v vs ih =>
    rw [List.foldl_cons]
    cases h : goSplitComma v with
    | nil => simp [hostPairList, List.filterMap_cons, h, addHostPair, ih]
    | cons a tl =>
      cases tl with
      | nil => simp [hostPairList, List.filterMap_cons, h, addHostPair, ih]
      | cons b tl2 =>
        cases tl2 with
        | nil =>
          rw [ih]
          simp only [hostPairList, List.filterMap_cons, h, addHostPair]
          rfl
        | cons c tl3 => simp [hostPairList, List.filterMap_cons, h, addHostPair, ih]

/-- `New`'s `LocalMap` as a fold of assignments over well-formed
pairs. -/
theorem New_localMap (hps pps : List String) :
    (New hps pps).localMap =
      buildMap ((hostPairList hps).map fun p => (p.2, p.1)) (fun _ => none) := by
  unfold New
  rw [foldl_addPrefixPair_localMap, foldl_addHostPair_localMap]
  rfl

/-- `New`'s `RemoteMap` as a fold of assignments over well-formed
pairs. -/
theorem New_remoteMap (hps pps : List String) :
    (New hps pps).remoteMap = buildMap (hostPairList hps) (fun _ => none) := by
  unfold New
  rw [foldl_addPrefixPair_remoteMap, foldl_addHostPair_remoteMap]
  rfl

/- ===================== claim theorems: fakeca ===================== -/

/-- C1: the claim says `FromKeyPair` returns a `RootAuthority` or a
descriptive error on every input and never panics.  The code violates
it: on a key PEM that decodes and parses correctly together with a
certificate PEM containing no decodable PEM block, the test
`privKey == nil || certDER.Type != "CERTIFICATE"` dereferences the nil
`certDER`, a panic.  Under `demoLib`, `[0]` is such a key PEM and `[9]`
is such a certificate PEM. -/
theorem fromKeyPair_nil_cert_deref :
    fromKeyPair demoLib [0] [9] = LoadResult.nilDeref := rfl

/-- C10: `FakeCA.NewCert` puts the constant serial number 1658 and the
constant SubjectKeyId [1,2,3,4,6] into every leaf template, whatever
the DNS names are, and every leaf issued by the same root has the same
issuer; hence any two leaves from one root share the
issuer-and-serial pair. -/
theorem newCert_constant_serial_and_skid (d1 d2 : List String) (ca : FakeCAData) :
    (newCertTemplate d1).serialNumber = 1658 ∧
    (newCertTemplate d1).subjectKeyId = [1, 2, 3, 4, 6] ∧
    (newCertTemplate d1).serialNumber = (newCertTemplate d2).serialNumber ∧
    (newCertTemplate d1).subjectKeyId = (newCertTemplate d2).subjectKeyId ∧
    (newCertIssuer ca, (newCertTemplate d1).serialNumber) =
      (newCertIssuer ca, (newCertTemplate d2).serialNumber) :=
  ⟨rfl, rfl, rfl, rfl, rfl⟩

/- ===================== claim theorems: New / hostKey ===================== -/

/-- C4 (counterexample): with two well-formed entries sharing the
remote host "r1", `LocalMap` and `RemoteMap` are not inverses:
`LocalMap "a" = some "r1"` but `RemoteMap "r1" = some "b"`. -/
theorem hostPair_maps_inverse_cx :
    ¬ ((New ["r1,a", "r1,b"] []).localMap "a" = some "r1" ↔
       (New ["r1,a", "r1,b"] []).remoteMap "r1" = some "a") := by
  decide

/-- C4 (amended): for well-formed host_pair entries whose remote hosts
are pairwise distinct and whose normalized local hosts are pairwise
distinct, `LocalMap` and `RemoteMap` are exact inverses; and `hostKey`
identifies "http://a.com" with "a.com" and "127.0.0.1:7777" with
"localhost:7777". -/
theorem hostPair_maps_inverse (hps pps : List String)
    (hr : ((hostPairList hps).map Prod.fst).Nodup)
    (hl : ((hostPairList hps).map Prod.snd).Nodup) :
    (∀ l r, (New hps pps).localMap l = some r ↔
      (New hps pps).remoteMap r = some l) ∧
    hostKey "http://a.com" = hostKey "a.com" ∧
    hostKey "127.0.0.1:7777" = hostKey "localhost:7777" := by
  refine ⟨?_, by decide, by decide⟩
  intro l r
  have hnd1 : ((((hostPairList hps).map fun p => (p.2, p.1)).map Prod.fst)).Nodup := by
    have heq : (((hostPairList hps).map fun p => (p.2, p.1)).map Prod.fst) =
        (hostPairList hps).map Prod.snd := by
      simp [List.map_map, Function.comp]
    rw [heq]
    exact hl
  rw [New_localMap, New_remoteMap,
    buildMap_eq_some_iff _ _ _ _ hnd1, buildMap_eq_some_iff _ _ _ _ hr]
  constructor
  · rintro (hmem | ⟨_, hc⟩)
    · left
      simp only [List.mem_map] at hmem
      obtain ⟨⟨a, b⟩, hmem, heq⟩ := hmem
      simp only [Prod.mk.injEq] at heq
      obtain ⟨hb, ha⟩ := heq
      subst hb
      subst ha
      exact hmem
    · exact absurd hc (by simp)
  · rintro (hmem | ⟨_, hc⟩)
    · left
      simp only [List.mem_map]
      exact ⟨(r, l), hmem, rfl⟩
    · exact absurd hc (by simp)

/-- C4 (witness): instantiation of `hostPair_maps_inverse` at the
single pair "r1,a". -/
theorem hostPair_maps_inverse_witness :
    ((New ["r1,a"] []).localMap "a" = some "r1" ↔
      (New ["r1,a"] []).remoteMap "r1" = some "a") ∧
    hostKey "http://a.com" = hostKey "a.com" := by
  have h := hostPair_maps_inverse ["r1,a"] [] (by decide) (by decide)
  exact ⟨h.1 "a" "r1", h.2.1⟩

/-- C9: an entry that does not split into exactly two comma-separated
fields is ignored by `New`: the tables equal those built with the
entry removed, wherever it sits in either input list. -/
theorem malformed_entries_ignored (xs ys us vs pps hps : List String) (e : String)
    (h : (goSplitComma e).length ≠ 2) :
    New (xs ++ e :: ys) pps = New (xs ++ ys) pps ∧
    New hps (us ++ e :: vs) = New hps (us ++ vs) := by
  constructor
  · unfold New
    rw [List.foldl_append, List.foldl_append, List.foldl_cons,
      addHostPair_malformed _ _ h]
  · unfold New
    rw [List.foldl_append, List.foldl_append, List.foldl_cons,
      addPrefixPair_malformed _ _ h]

/-- C9 (witness): instantiation of `malformed_entries_ignored` at the
three-field entry "a,b,c". -/
theorem malformed_entries_ignored_witness :
    New ["r1,a", "a,b,c"] [] = New ["r1,a"] [] ∧
    New [] ["h,/api", "a,b,c"] = New [] ["h,/api"] := by
  have h := malformed_entries_ignored ["r1,a"] [] ["h,/api"] [] [] [] "a,b,c" (by decide)
  constructor
  · exact h.1
  · exact h.2

/- ===================== claim theorems: dispatch / redirect ===================== -/

/-- C5 (counterexample): the claim as stated — every mapped
non-CONNECT request is redirected with the scheme upgraded to
https — is false of the code.  `redirectToHTTPS` upgrades the scheme
only when it is literally "http" (src/connectproxy/connect.go:95-97),
so an origin-form request with empty URL scheme for the mapped host
"a" gets a scheme-relative 307 redirect, not an https one. -/
theorem nonconnect_redirect_or_405_cx :
    redirectToHTTPS (New ["r1,a"] []) ⟨"GET", "a", ⟨"", "a", "/p"⟩⟩ =
      HTTPResponse.redirect 307 ⟨"", "r1", "/p"⟩ ∧
    redirectToHTTPS (New ["r1,a"] []) ⟨"GET", "a", ⟨"", "a", "/p"⟩⟩ ≠
      HTTPResponse.redirect 307 ⟨"https", "r1", "/p"⟩ := by
  decide

/-- C5 (amended): a non-CONNECT request (outside the reserved shutdown
path) is handed to `redirectToHTTPS`; every mapped normalized host
gets an HTTP 307 redirect to the same path on the mapped remote host,
with the scheme upgraded to "https" when it is "http" and left
unchanged otherwise; an unmapped host gets HTTP 405. -/
theorem nonconnect_redirect_or_405 (t : Tables) (req : Request) :
    (req.method ≠ "CONNECT" → req.url.path ≠ "/quitquitquit" →
      serveHTTP t req = ServeAction.answered (redirectToHTTPS t req)) ∧
    (∀ remoteHost, t.localMap (hostKey req.host) = some remoteHost →
      redirectToHTTPS t req =
        HTTPResponse.redirect 307
          ⟨if req.url.scheme = "http" then "https" else req.url.scheme,
           remoteHost, req.url.path⟩) ∧
    (t.localMap (hostKey req.host) = none →
      redirectToHTTPS t req = HTTPResponse.httpError 405 (errText req)) := by
  obtain ⟨m, h, ⟨us, uh, up⟩⟩ := req
  refine ⟨?_, ?_, ?_⟩
  · intro hm hq
    simp only at hm hq
    simp [serveHTTP, hq, hm]
  · intro remoteHost hmap
    unfold redirectToHTTPS
    rw [hmap]
    by_cases hs : us = "http"
    · simp [hs]
    · simp [hs]
  · intro hmap
    unfold redirectToHTTPS
    rw [hmap]

/-- C5 (witness): instantiation of `nonconnect_redirect_or_405` on a
GET with scheme "http" for the mapped host "a" (upgraded redirect), a
GET with empty scheme for "a" (scheme left unchanged), and a GET for
the unmapped host "z" (405). -/
theorem nonconnect_redirect_or_405_witness :
    serveHTTP (New ["r1,a"] []) ⟨"GET", "a", ⟨"http", "a", "/p"⟩⟩ =
      ServeAction.answered
        (redirectToHTTPS (New ["r1,a"] []) ⟨"GET", "a", ⟨"http", "a", "/p"⟩⟩) ∧
    redirectToHTTPS (New ["r1,a"] []) ⟨"GET", "a", ⟨"http", "a", "/p"⟩⟩ =
      HTTPResponse.redirect 307 ⟨"https", "r1", "/p"⟩ ∧
    redirectToHTTPS (New ["r1,a"] []) ⟨"GET", "a", ⟨"", "a", "/p"⟩⟩ =
      HTTPResponse.redirect 307 ⟨"", "r1", "/p"⟩ ∧
    redirectToHTTPS (New ["r1,a"] []) ⟨"GET", "z", ⟨"http", "z", "/p"⟩⟩ =
      HTTPResponse.httpError 405
        (errText ⟨"GET", "z", ⟨"http", "z", "/p"⟩⟩) := by
  refine ⟨?_, ?_, ?_, ?_⟩
  · exact (nonconnect_redirect_or_405 (New ["r1,a"] []) ⟨"GET", "a", ⟨"http", "a", "/p"⟩⟩).1
      (by decide) (by decide)
  · have hr := (nonconnect_redirect_or_405 (New ["r1,a"] [])
      ⟨"GET", "a", ⟨"http", "a", "/p"⟩⟩).2.1 "r1" (by decide)
    simpa using hr
  · have hr := (nonconnect_redirect_or_405 (New ["r1,a"] [])
      ⟨"GET", "a", ⟨"", "a", "/p"⟩⟩).2.1 "r1" (by decide)
    simpa using hr
  · exact (nonconnect_redirect_or_405 (New ["r1,a"] []) ⟨"GET", "z", ⟨"http", "z", "/p"⟩⟩).2.2
      (by decide)

/- ===================== claim theorems: httpsproxy routing ===================== -/

/-- The pass-through outcome of the prefix loop, characterized by a
literal string-prefix witness. -/
theorem proxyServeHTTP_passthrough_iff (prefixes : List String) (path : String) :
    proxyServeHTTP prefixes path = Route.passthrough ↔
      ∃ pre, pre ∈ prefixes ∧ ∃ rest, pre.data ++ rest = path.data := by
  induction prefixes with
  | nil => simp [proxyServeHTTP]
  | cons p ps ih =>
    cases hsw : startsWithStr path p with
    | true =>
      have hsw' : List.isPrefixOf p.data path.data = true := hsw
      have hp : p.data <+: path.data := List.isPrefixOf_iff_prefix.mp hsw'
      have hstep : proxyServeHTTP (p :: ps) path = Route.passthrough := by
        simp [proxyServeHTTP, hsw]
      rw [hstep]
      constructor
      · intro _
        exact ⟨p, List.mem_cons_self p ps, hp⟩
      · intro _
        rfl
    | false =>
      have hp : ¬ p.data <+: path.data := by
        intro hc
        have hc' : startsWithStr path p = true := List.isPrefixOf_iff_prefix.mpr hc
        rw [hsw] at hc'
        cases hc'
      have hstep : proxyServeHTTP (p :: ps) path = proxyServeHTTP ps path := by
        simp [proxyServeHTTP, hsw]
      rw [hstep, ih]
      constructor
      · rintro ⟨pre, hmem, rest, hrest⟩
        exact ⟨pre, List.mem_cons_of_mem p hmem, rest, hrest⟩
      · rintro ⟨pre, hmem, rest, hrest⟩
        rcases List.mem_cons.mp hmem with heq | hmem'
        · subst heq
          exact absurd ⟨rest, hrest⟩ hp
        · exact ⟨pre, hmem', rest, hrest⟩

/-- C6: a request whose path literally starts with some configured
prefix is served by the pass-through (next) reverse proxy, and a
request whose path starts with no configured prefix is served by the
masquerade (target) reverse proxy. -/
theorem path_prefix_routing (prefixes : List String) (path : String) :
    (proxyServeHTTP prefixes path = Route.passthrough ↔
      ∃ pre, pre ∈ prefixes ∧ ∃ rest, pre.data ++ rest = path.data) ∧
    (proxyServeHTTP prefixes path = Route.masquerade ↔
      ¬ ∃ pre, pre ∈ prefixes ∧ ∃ rest, pre.data ++ rest = path.data) := by
  have hiff := proxyServeHTTP_passthrough_iff prefixes path
  refine ⟨hiff, ?_⟩
  rw [← hiff]
  cases h : proxyServeHTTP prefixes path <;> simp

/- ===================== claim theorems: director host rewrite ===================== -/

/-- A takeWhile over a list all of whose elements satisfy the
predicate is the list itself. -/
theorem takeWhile_all {p : Char → Bool} (l : List Char) (h : ∀ c ∈ l, p c) :
    l.takeWhile p = l := by
  induction l with
  | nil => rfl
  | cons c cs ih =>
    rw [List.takeWhile_cons, if_pos (h c (List.mem_cons_self c cs))]
    rw [ih fun d hd => h d (List.mem_cons_of_mem c hd)]

/-- C7: both reverse proxies installed by `StartServer` rewrite the
outbound request's Host field to the pass-through host (nextHost),
after running the wrapped library default director: the URL and method
produced by the default director are kept, only Host is overwritten.
The hypothesis says nextHost has no "/" (it is a plain host:port), so
`url.Parse("https://" + nextHost).Host` is nextHost itself. -/
theorem directors_rewrite_host (targetDirector nextDirector : Request → Request)
    (nextHost : String) (r : Request)
    (h : ∀ c ∈ nextHost.data, c ≠ '/') :
    ((startServerDirectors targetDirector nextDirector nextHost).target r).host =
      nextHost ∧
    ((startServerDirectors targetDirector nextDirector nextHost).next r).host =
      nextHost ∧
    ((startServerDirectors targetDirector nextDirector nextHost).target r).url =
      (targetDirector r).url ∧
    ((startServerDirectors targetDirector nextDirector nextHost).next r).url =
      (nextDirector r).url ∧
    ((startServerDirectors targetDirector nextDirector nextHost).target r).method =
      (targetDirector r).method ∧
    ((startServerDirectors targetDirector nextDirector nextHost).next r).method =
      (nextDirector r).method := by
  have hh : urlHostOf nextHost = nextHost := by
    unfold urlHostOf
    have hall : ∀ c ∈ nextHost.data, (fun c => decide (c ≠ '/')) c = true := by
      intro c hc
      simpa using h c hc
    rw [takeWhile_all nextHost.data hall]
  refine ⟨?_, ?_, rfl, rfl, rfl, rfl⟩ <;>
    simp [startServerDirectors, makeDirector, hh]

/-- C7 (witness): instantiation of `directors_rewrite_host` with the
identity as default directors and nextHost "example.com:443". -/
theorem directors_rewrite_host_witness :
    ((startServerDirectors id id "example.com:443").target
        ⟨"GET", "x", ⟨"https", "x", "/p"⟩⟩).host = "example.com:443" ∧
    ((startServerDirectors id id "example.com:443").next
        ⟨"GET", "x", ⟨"https", "x", "/p"⟩⟩).host = "example.com:443" := by
  have h := directors_rewrite_host id id "example.com:443"
    ⟨"GET", "x", ⟨"https", "x", "/p"⟩⟩ (by decide)
  exact ⟨h.1, h.2.1⟩

/- ===================== claim theorems: CONNECT handling ===================== -/

/-- C3: when domain-proxy creation fails (certificate issuance, TLS
key-pair construction, proxy construction or listener start), the
`ProxyMap` is left unchanged, `handleConnect` answers 503 with the
error text, and a later request for the same key runs the very same
creation attempt again. -/
theorem creation_failure_503_table_unchanged (t : Tables) (pm : ProxyMapT)
    (env : ConnectEnv) (req : Request) (e : String)
    (h : (maybeStartHTTPSProxy t pm env req).res = .error e) :
    (maybeStartHTTPSProxy t pm env req).pm = pm ∧
    handleConnect t pm env req =
      ⟨pm, (maybeStartHTTPSProxy t pm env req).events ++ [Event.respond 503 e]⟩ ∧
    maybeStartHTTPSProxy t (handleConnect t pm env req).pm env req =
      maybeStartHTTPSProxy t pm env req := by
  have hpm : (maybeStartHTTPSProxy t pm env req).pm = pm := by
    cases h1 : t.remoteMap req.host with
    | none => simp [maybeStartHTTPSProxy, h1] at h
    | some localHost =>
      cases h2 : pm localHost with
      | some info => simp [maybeStartHTTPSProxy, h1, h2] at h
      | none =>
        cases h3 : env.newCert (urlHostname req.url) with
        | error e1 => simp [maybeStartHTTPSProxy, h1, h2, h3]
        | ok pr =>
          obtain ⟨certPEM, privKeyPEM⟩ := pr
          cases h4 : env.x509KeyPair certPEM privKeyPEM with
          | error e2 => simp [maybeStartHTTPSProxy, h1, h2, h3, h4]
          | ok serverCert =>
            cases h5 : env.newProxy serverCert localHost req.host (t.prefixMap req.host) with
            | error e3 => simp [maybeStartHTTPSProxy, h1, h2, h3, h4, h5]
            | ok hid =>
              cases h6 : env.startServer hid with
              | error e4 => simp [maybeStartHTTPSProxy, h1, h2, h3, h4, h5, h6]
              | ok addr => simp [maybeStartHTTPSProxy, h1, h2, h3, h4, h5, h6] at h
  have hhc : handleConnect t pm env req =
      ⟨pm, (maybeStartHTTPSProxy t pm env req).events ++ [Event.respond 503 e]⟩ := by
    simp only [handleConnect, h, hpm]
  refine ⟨hpm, hhc, ?_⟩
  rw [hhc]

/-- C3 (witness): instantiation of `creation_failure_503_table_unchanged`
with an environment whose certificate issuance fails with "boom" on
the mapped CONNECT host "r". -/
theorem creation_failure_503_witness :
    (maybeStartHTTPSProxy (New ["r,a"] []) (fun _ => none) failEnv
        ⟨"CONNECT", "r", ⟨"", "r", ""⟩⟩).pm = (fun _ => none) ∧
    handleConnect (New ["r,a"] []) (fun _ => none) failEnv
        ⟨"CONNECT", "r", ⟨"", "r", ""⟩⟩ =
      ⟨fun _ => none,
        (maybeStartHTTPSProxy (New ["r,a"] []) (fun _ => none) failEnv
          ⟨"CONNECT", "r", ⟨"", "r", ""⟩⟩).events ++ [Event.respond 503 "boom"]⟩ ∧
    maybeStartHTTPSProxy (New ["r,a"] [])
        (handleConnect (New ["r,a"] []) (fun _ => none) failEnv
          ⟨"CONNECT", "r", ⟨"", "r", ""⟩⟩).pm failEnv
        ⟨"CONNECT", "r", ⟨"", "r", ""⟩⟩ =
      maybeStartHTTPSProxy (New ["r,a"] []) (fun _ => none) failEnv
        ⟨"CONNECT", "r", ⟨"", "r", ""⟩⟩ :=
  creation_failure_503_table_unchanged (New ["r,a"] []) (fun _ => none) failEnv
    ⟨"CONNECT", "r", ⟨"", "r", ""⟩⟩ "boom" (by rfl)

/-- C8: a CONNECT whose host has no `RemoteMap` entry makes
`maybeStartHTTPSProxy` return ("", nil) at once — no certificate is
issued, nothing is inserted — and `handleConnect` dials the originally
requested host to establish the tunnel. -/
theorem unmapped_connect_tunnels_directly (t : Tables) (pm : ProxyMapT)
    (env : ConnectEnv) (req : Request)
    (h : t.remoteMap req.host = none) :
    maybeStartHTTPSProxy t pm env req = ⟨pm, .ok "", []⟩ ∧
    (handleConnect t pm env req).pm = pm ∧
    (∀ hn, Event.newCert hn ∉ (handleConnect t pm env req).events) ∧
    Event.dial req.host ∈ (handleConnect t pm env req).events := by
  have hms : maybeStartHTTPSProxy t pm env req = ⟨pm, .ok "", []⟩ := by
    unfold maybeStartHTTPSProxy
    rw [h]
  have hhc : handleConnect t pm env req =
      match env.dial req.host with
      | .error e => ⟨pm, [Event.dial req.host, Event.respond 503 e]⟩
      | .ok _ =>
        ⟨pm, [Event.dial req.host, Event.respond 200 "", Event.tunnelStart req.host]⟩ := by
    unfold handleConnect
    rw [hms]
    cases hd : env.dial req.host <;> simp [hd]
  refine ⟨hms, ?_, ?_, ?_⟩
  · rw [hhc]
    cases env.dial req.host <;> rfl
  · intro hn
    rw [hhc]
    cases env.dial req.host <;> simp
  · rw [hhc]
    cases env.dial req.host <;> simp

/-- C8 (witness): instantiation of `unmapped_connect_tunnels_directly`
on a CONNECT for the unmapped host "other:443" with empty tables. -/
theorem unmapped_connect_tunnels_directly_witness :
    maybeStartHTTPSProxy (New [] []) (fun _ => none) okEnv
        ⟨"CONNECT", "other:443", ⟨"", "other:443", ""⟩⟩ =
      ⟨fun _ => none, .ok "", []⟩ ∧
    (handleConnect (New [] []) (fun _ => none) okEnv
        ⟨"CONNECT", "other:443", ⟨"", "other:443", ""⟩⟩).pm = (fun _ => none) ∧
    (∀ hn, Event.newCert hn ∉
      (handleConnect (New [] []) (fun _ => none) okEnv
        ⟨"CONNECT", "other:443", ⟨"", "other:443", ""⟩⟩).events) ∧
    Event.dial "other:443" ∈
      (handleConnect (New [] []) (fun _ => none) okEnv
        ⟨"CONNECT", "other:443", ⟨"", "other:443", ""⟩⟩).events :=
  unmapped_connect_tunnels_directly (New [] []) (fun _ => none) okEnv
    ⟨"CONNECT", "other:443", ⟨"", "other:443", ""⟩⟩ (by rfl)

/- ===================== claim theorems: double-checked locking ===================== -/

/-- The invariant holds initially: nothing created, nobody finished. -/
theorem dcInv_init : DCInv dcInit := by
  constructor
  · exact Or.inl ⟨rfl, rfl⟩
  · intro tid hfin
    simp [dcInit] at hfin

/-- A thread that finishes by reading `some a` from the table keeps
the invariant: the table can only hold the address of creation 0. -/
theorem dcInv_finish_read (s : SysState) (tid : Nat) (a : String)
    (htab : s.created = 0 ∧ s.table = none ∨
      s.created = 1 ∧ s.table = some (freshAddr 0))
    (hthr : ∀ t, (s.threads t).pc = PC.finished →
      s.created = 1 ∧ (s.threads t).result = some (freshAddr 0))
    (ht : s.table = some a) (lk : Option Nat) :
    DCInv { s with lock := lk, threads := setThread s tid ⟨PC.finished, some a⟩ } := by
  have hca : s.created = 1 ∧ a = freshAddr 0 := by
    rcases htab with ⟨h1, h2⟩ | ⟨h1, h2⟩
    · rw [ht] at h2
      cases h2
    · rw [ht] at h2
      exact ⟨h1, Option.some.inj h2⟩
  constructor
  · exact htab
  · intro tid' hfin
    by_cases he : tid' = tid
    · subst he
      refine ⟨hca.1, ?_⟩
      show (setThread s tid' ⟨PC.finished, some a⟩ tid').result = some (freshAddr 0)
      simp only [setThread, if_pos rfl]
      rw [hca.2]
      simp
    · replace hfin : (s.threads tid').pc = PC.finished := by
        simpa [setThread, he] using hfin
      refine ⟨hca.1, ?_⟩
      show (setThread s tid ⟨PC.finished, some a⟩ tid').result = some (freshAddr 0)
      simp only [setThread, if_neg he]
      exact (hthr tid' hfin).2

/-- A thread that moves without touching table, created counter or
results keeps the invariant. -/
theorem dcInv_move (s : SysState) (tid : Nat) (pc' : PC)
    (hpc' : pc' ≠ PC.finished)
    (htab : s.created = 0 ∧ s.table = none ∨
      s.created = 1 ∧ s.table = some (freshAddr 0))
    (hthr : ∀ t, (s.threads t).pc = PC.finished →
      s.created = 1 ∧ (s.threads t).result = some (freshAddr 0))
    (lk : Option Nat) :
    DCInv { s with lock := lk, threads := setThread s tid ⟨pc', none⟩ } := by
  constructor
  · exact htab
  · intro tid' hfin
    by_cases he : tid' = tid
    · subst he
      replace hfin : pc' = PC.finished := by
        simpa [setThread] using hfin
      exact absurd hfin hpc'
    · replace hfin : (s.threads tid').pc = PC.finished := by
        simpa [setThread, he] using hfin
      refine ⟨(hthr tid' hfin).1, ?_⟩
      show (setThread s tid ⟨pc', none⟩ tid').result = some (freshAddr 0)
      simp only [setThread, if_neg he]
      exact (hthr tid' hfin).2

/-- The invariant is preserved by every step of every thread. -/
theorem dcInv_step (s : SysState) (tid : Nat) (h : DCInv s) :
    DCInv (dcStep s tid) := by
  obtain ⟨htab, hthr⟩ := h
  cases hpc : (s.threads tid).pc with
  | start =>
    cases hl : s.lock with
    | some w =>
      have hstep : dcStep s tid = s := by
        simp [dcStep, hpc, hl]
      rw [hstep]
      exact ⟨htab, hthr⟩
    | none =>
      cases ht : s.table with
      | some a =>
        have hstep : dcStep s tid =
            { s with threads := setThread s tid ⟨PC.finished, some a⟩ } := by
          simp [dcStep, hpc, hl, ht]
        rw [hstep]
        have := dcInv_finish_read s tid a htab hthr ht s.lock
        simpa using this
      | none =>
        have hstep : dcStep s tid =
            { s with threads := setThread s tid ⟨PC.tryLock, none⟩ } := by
          simp [dcStep, hpc, hl, ht]
        rw [hstep]
        have := dcInv_move s tid PC.tryLock (by simp) htab hthr s.lock
        simpa using this
  | tryLock =>
    cases hl : s.lock with
    | some w =>
      have hstep : dcStep s tid = s := by
        simp [dcStep, hpc, hl]
      rw [hstep]
      exact ⟨htab, hthr⟩
    | none =>
      have hstep : dcStep s tid =
          { s with lock := some tid, threads := setThread s tid ⟨PC.recheck, none⟩ } := by
        simp [dcStep, hpc, hl]
      rw [hstep]
      exact dcInv_move s tid PC.recheck (by simp) htab hthr (some tid)
  | recheck =>
    cases ht : s.table with
    | some a =>
      have hstep : dcStep s tid =
          { s with lock := none, threads := setThread s tid ⟨PC.finished, some a⟩ } := by
        simp [dcStep, hpc, ht]
      rw [hstep]
      exact dcInv_finish_read s tid a htab hthr ht none
    | none =>
      have hc0 : s.created = 0 := by
        rcases htab with ⟨h1, _⟩ | ⟨_, h2⟩
        · exact h1
        · rw [ht] at h2
          cases h2
      have hstep : dcStep s tid =
          { s with
            table := some (freshAddr s.created)
            created := s.created + 1
            lock := none
            threads := setThread s tid ⟨PC.finished, some (freshAddr s.created)⟩ } := by
        simp [dcStep, hpc, ht]
      rw [hstep]
      constructor
      · exact Or.inr ⟨by simp [hc0], by simp [hc0]⟩
      · intro tid' hfin
        by_cases he : tid' = tid
        · subst he
          refine ⟨by simp [hc0], ?_⟩
          show (setThread s tid' ⟨PC.finished, some (freshAddr s.created)⟩ tid').result =
            some (freshAddr 0)
          simp only [setThread, if_pos rfl]
          rw [hc0]
          simp
        · replace hfin : (s.threads tid').pc = PC.finished := by
            simpa [setThread, he] using hfin
          have hold := hthr tid' hfin
          rw [hc0] at hold
          cases hold.1
  | finished =>
    have hstep : dcStep s tid = s := by
      simp [dcStep, hpc]
    rw [hstep]
    exact ⟨htab, hthr⟩

/-- The invariant holds after any schedule from any invariant state. -/
theorem dcInv_foldl (sched : List Nat) (s : SysState) (h : DCInv s) :
    DCInv (sched.foldl dcStep s) := by
  induction sched generalizing s with
  | nil => exact h
  | cons a rest ih => exact ih _ (dcInv_step s a h)

/-- The invariant holds after any run. -/
theorem dcInv_run (sched : List Nat) : DCInv (dcRun sched) :=
  dcInv_foldl sched dcInit dcInv_init

/-- C2: under every interleaving of arbitrarily many concurrent
callers of `maybeStartHTTPSProxy` for one previously-unseen key, at
most one TerminatingProxy is created-and-inserted, a finished caller
implies exactly one was created, and every finished caller got the
same listening address (that of the single creation). -/
theorem dcl_single_proxy_per_key (sched : List Nat) :
    (dcRun sched).created ≤ 1 ∧
    ∀ tid, ((dcRun sched).threads tid).pc = PC.finished →
      (dcRun sched).created = 1 ∧
      ((dcRun sched).threads tid).result = some (freshAddr 0) := by
  obtain ⟨htab, hthr⟩ := dcInv_run sched
  refine ⟨?_, hthr⟩
  rcases htab with ⟨h1, _⟩ | ⟨h1, _⟩ <;> omega

/-- C2 (witness): in the run where thread 0 executes its three steps
and then thread 1 reads, both threads finish with the address of the
single creation. -/
theorem dcl_single_proxy_per_key_witness :
    (dcRun [0, 0, 0, 1]).created = 1 ∧
    ((dcRun [0, 0, 0, 1]).threads 0).result = some (freshAddr 0) ∧
    ((dcRun [0, 0, 0, 1]).threads 1).result = some (freshAddr 0) := by
  have h := dcl_single_proxy_per_key [0, 0, 0, 1]
  have h0 := h.2 0 (by decide)
  have h1 := h.2 1 (by decide)
  exact ⟨h0.1, h0.2, h1.2⟩
